import Mathlib

/-!
# Accounting core of the staking / fee-distribution ledger

Shallow embedding of
* `x/distribution/types` : `TotalAccum`, `FeePool` (exercised by `fee_pool_test.go`),
* `x/stake/simulation/invariants.go` : `SupplyInvariants`, `PositivePowerInvariant`,
  `ValidatorSetInvariant`, `AllInvariants`,
* `x/mint/keeper.go` : `Keeper.GetMinter`, `Keeper.SetMinter`,
* `store/transientstore.go` : `newTransientStore`, `transientStore.Commit`,
* `x/slashing/keys.go` : the slashing-period and slash-record key builders.

Go `panic` is an `Except.error`, a Go `error` result is an `Option` (`none` is `nil`).
-/

namespace Cosmos

/-! ## Decimal arithmetic (`sdk.Dec`, `sdk.Int`) -/

/-- Modelled from the spec: the fixed-precision decimal type `sdk.Dec` is not among the
sources. A decimal is an unbounded integer `raw` counting units of `10^-Precision`;
addition, multiplication by an integer and comparison are exact. -/
structure Dec where
  raw : Int
deriving DecidableEq, Repr

/-- Number of decimal places carried by a `Dec`. -/
def Precision : Nat := 10

/-- The scaling factor `10^Precision`. -/
def precisionMultiplier : Int := 10 ^ Precision

/-- The decimal zero, `sdk.ZeroDec()`. -/
def ZeroDec : Dec := ⟨0⟩

/-- The decimal with integer value `i`, `sdk.NewDecFromInt(i)`. -/
def NewDecFromInt (i : Int) : Dec := ⟨i * precisionMultiplier⟩

/-- The decimal with integer value `i` given as an int64, `sdk.NewDecWithoutFra(i)`. -/
def NewDecWithoutFra (i : Int) : Dec := ⟨i * precisionMultiplier⟩

/-- Exact sum, `d.Add(d2)`. -/
def Dec.Add (d d2 : Dec) : Dec := ⟨d.raw + d2.raw⟩

/-- Exact product with an integer, `d.MulInt(i)`. -/
def Dec.MulInt (d : Dec) (i : Int) : Dec := ⟨d.raw * i⟩

/-- Equality test, `d.Equal(d2)`. -/
def Dec.Equal (d d2 : Dec) : Bool := decide (d.raw = d2.raw)

/-- Strict comparison, `d.GT(d2)`. -/
def Dec.GT (d d2 : Dec) : Bool := decide (d2.raw < d.raw)

/-! ## Accumulator (`TotalAccum`) -/

/-- Failure of an accumulator update. -/
inductive AccumError where
  | OutOfOrderHeight
deriving DecidableEq, Repr

/-- The accumulator record `{ updateHeight, accum }`. -/
structure TotalAccum where
  UpdateHeight : Int
  Accum : Dec
deriving DecidableEq, Repr

/-- Modelled from the spec: `NewTotalAccum` is called by `fee_pool_test.go` but its body is
not among the sources. A fresh accumulator at `height` with zero accum. -/
def NewTotalAccum (height : Int) : TotalAccum := ⟨height, ZeroDec⟩

/-- Modelled from the spec: `TotalAccum.UpdateForNewHeight` is called by `fee_pool_test.go`
but its body is not among the sources. Precondition `newHeight >= updateHeight`, otherwise
the operation fails with `OutOfOrderHeight`; on success
`accum' = accum + rate * (newHeight - updateHeight)` and `updateHeight' = newHeight`. -/
def TotalAccum.UpdateForNewHeight (ta : TotalAccum) (newHeight : Int) (rate : Dec) :
    Except AccumError TotalAccum :=
  if newHeight < ta.UpdateHeight then
    Except.error AccumError.OutOfOrderHeight
  else
    Except.ok ⟨newHeight, ta.Accum.Add (rate.MulInt (newHeight - ta.UpdateHeight))⟩

/-- A finite sequence of `UpdateForNewHeight(h, r)` calls, threaded through the accumulator
as the test does with `ta = ta.UpdateForNewHeight(...)`; the first failure aborts. -/
def updateSequence (ta : TotalAccum) : List (Int × Dec) → Except AccumError TotalAccum
  | [] => Except.ok ta
  | (h, r) :: rest =>
    match ta.UpdateForNewHeight h r with
    | Except.error e => Except.error e
    | Except.ok ta1 => updateSequence ta1 rest

/-- The heights of the calls never decrease, starting from `h0`. -/
def nonDecreasingFrom (h0 : Int) : List (Int × Dec) → Prop
  | [] => True
  | (h, _) :: rest => h0 ≤ h ∧ nonDecreasingFrom h rest

/-- The definite sum `Σ rate_i * (h_i - h_{i-1})` of the spec, in raw decimal units. -/
def definiteSum (h0 : Int) : List (Int × Dec) → Int
  | [] => 0
  | (h, r) :: rest => r.raw * (h - h0) + definiteSum h rest

/-- The height of the last call, or `h0` when there is none. -/
def lastHeight (h0 : Int) : List (Int × Dec) → Int
  | [] => h0
  | (h, _) :: rest => lastHeight h rest

/-! ## Coins -/

/-- An integer amount of one denomination, `sdk.Coin`. -/
structure Coin where
  Denom : String
  Amount : Int
deriving DecidableEq, Repr

/-- A decimal amount of one denomination, `DecCoin`. -/
structure DecCoin where
  Denom : String
  Amount : Dec
deriving DecidableEq, Repr

/-- Modelled from the spec: `sdk.Coins.AmountOf` is not among the sources. The token balance
held in `denom`: the amount of the coin of that denomination, zero when there is none. -/
def Coins.AmountOf (coins : List Coin) (denom : String) : Int :=
  match coins.find? (fun c => c.Denom == denom) with
  | some c => c.Amount
  | none => 0

/-- Modelled from the spec: `DecCoins.AmountOf` is not among the sources. The decimal balance
held in `denom`: the amount of the coin of that denomination, zero when there is none. -/
def DecCoins.AmountOf (coins : List DecCoin) (denom : String) : Dec :=
  match coins.find? (fun c => c.Denom == denom) with
  | some c => c.Amount
  | none => ZeroDec

/-! ## Fee pool -/

/-- The fee pool: the accumulator read by `fee_pool_test.go` and the two pools read by
`SupplyInvariants`. -/
structure FeePool where
  TotalValAccum : TotalAccum
  Pool : List DecCoin
  CommunityPool : List DecCoin
deriving DecidableEq, Repr

/-- Modelled from the spec: `InitialFeePool` is called by `fee_pool_test.go` but its body is
not among the sources. The fee pool created at genesis: accumulator at height 0, no funds. -/
def InitialFeePool : FeePool := ⟨NewTotalAccum 0, [], []⟩

/-- Modelled from the spec: `FeePool.UpdateTotalValAccum` is called by `fee_pool_test.go` but
its body is not among the sources. It delegates to `UpdateForNewHeight` on the accumulator
of the fee pool and leaves the other fields alone. -/
def FeePool.UpdateTotalValAccum (f : FeePool) (height : Int) (totalBondedTokens : Dec) :
    Except AccumError FeePool :=
  match f.TotalValAccum.UpdateForNewHeight height totalBondedTokens with
  | Except.error e => Except.error e
  | Except.ok ta => Except.ok ⟨ta, f.Pool, f.CommunityPool⟩

/-! ## State read by the invariant checker -/

/-- Byte strings. -/
abbrev Bytes := List UInt8

/-- Modelled from the spec: `sdk.BondStatus` is not among the sources; a validator has
`status ∈ {Bonded, Unbonding, Unbonded}`. -/
inductive BondStatus where
  | Unbonded
  | Unbonding
  | Bonded
deriving DecidableEq, Repr

/-- The part of the `sdk.Validator` interface the invariants call: `GetStatus`, `GetPower`,
`GetTokens`, `GetConsPubKey`. -/
structure Validator where
  Status : BondStatus
  Power : Dec
  Tokens : Dec
  ConsPubKey : Bytes
deriving DecidableEq, Repr

/-- The part of the `sdk.Account` interface the invariants call: `GetCoins`. -/
structure Account where
  Coins : List Coin
deriving DecidableEq, Repr

/-- The part of `stake.UnbondingDelegation` the invariants read. -/
structure UnbondingDelegation where
  Balance : Coin
deriving DecidableEq, Repr

/-- The part of `distribution.ValidatorDistInfo` the invariants read. -/
structure ValidatorDistInfo where
  Pool : List DecCoin
  PoolCommission : List DecCoin
deriving DecidableEq, Repr

/-- The part of `stake.Pool` the invariants read. -/
structure Pool where
  LooseTokens : Dec
  BondedTokens : Dec
deriving DecidableEq, Repr

/-- What the four keepers hand to the invariants in a fresh deliver-mode context: the pool,
the fee pool and the stored records in store order. -/
structure State where
  pool : Pool
  accounts : List Account
  unbondingDelegations : List UnbondingDelegation
  validators : List Validator
  feePool : FeePool
  validatorDistInfos : List ValidatorDistInfo
deriving DecidableEq, Repr

/-- Modelled from the spec: the keepers' iterate operations are not among the sources.
Ordered iteration with a visitor, which stops early when the visitor returns the stop
signal. The variables the visitor closure captures are the state `σ`; `i` is the running
index passed to the visitor. -/
def iterate {α σ : Type} (fn : σ → Int → α → σ × Bool) : List α → Int → σ → σ
  | [], _, s => s
  | x :: rest, i, s =>
    match fn s i x with
    | (s1, true) => s1
    | (s1, false) => iterate fn rest (i + 1) s1

/-- Modelled from the spec: `am.IterateAccounts(ctx, process)`, over every account. -/
def IterateAccounts {σ : Type} (st : State) (process : σ → Account → σ × Bool) (s : σ) : σ :=
  iterate (fun s _ acc => process s acc) st.accounts 0 s

/-- Modelled from the spec: `k.IterateUnbondingDelegations(ctx, fn)`, over every unbonding
delegation. -/
def IterateUnbondingDelegations {σ : Type} (st : State)
    (fn : σ → Int → UnbondingDelegation → σ × Bool) (s : σ) : σ :=
  iterate fn st.unbondingDelegations 0 s

/-- Modelled from the spec: `k.IterateValidators(ctx, fn)`, over every stored validator. -/
def IterateValidators {σ : Type} (st : State) (fn : σ → Int → Validator → σ × Bool) (s : σ) :
    σ :=
  iterate fn st.validators 0 s

/-- The stored validators whose status is Bonded, in store order. -/
def bondedValidators (st : State) : List Validator :=
  st.validators.filter (fun v => decide (v.Status = BondStatus.Bonded))

/-- Modelled from the spec: `k.IterateValidatorsBonded(ctx, fn)`, over the bonded validators
only. -/
def IterateValidatorsBonded {σ : Type} (st : State) (fn : σ → Int → Validator → σ × Bool)
    (s : σ) : σ :=
  iterate fn (bondedValidators st) 0 s

/-- Modelled from the spec: `d.IterateValidatorDistInfos(ctx, fn)`, over every validator
distribution record. -/
def IterateValidatorDistInfos {σ : Type} (st : State)
    (fn : σ → Int → ValidatorDistInfo → σ × Bool) (s : σ) : σ :=
  iterate fn st.validatorDistInfos 0 s

/-! ## Invariants (`x/stake/simulation/invariants.go`) -/

/-- The errors built with `fmt.Errorf`, with the values their messages embed. -/
inductive InvariantError where
  | looseMismatch (poolLoose loose : Dec)
  | bondedMismatch (poolBonded bonded : Dec)
  | nonPositivePower (pubkey : Bytes)
deriving DecidableEq, Repr

/-- The visitor passed to `IterateAccounts`; the captured variables are `(loose, bonded)`. -/
def supplyAccountVisitor (s : Dec × Dec) (acc : Account) : (Dec × Dec) × Bool :=
  ((s.1.Add (NewDecFromInt (Coins.AmountOf acc.Coins "steak")), s.2), false)

/-- The visitor passed to `IterateUnbondingDelegations`. -/
def supplyUnbondingVisitor (s : Dec × Dec) (_ : Int) (ubd : UnbondingDelegation) :
    (Dec × Dec) × Bool :=
  ((s.1.Add (NewDecFromInt ubd.Balance.Amount), s.2), false)

/-- The visitor passed to `IterateValidators`: the `switch` on the status. -/
def supplyValidatorVisitor (s : Dec × Dec) (_ : Int) (validator : Validator) :
    (Dec × Dec) × Bool :=
  match validator.Status with
  | BondStatus.Bonded => ((s.1, s.2.Add validator.Power), false)
  | BondStatus.Unbonding => ((s.1.Add validator.Tokens, s.2), false)
  | BondStatus.Unbonded => ((s.1.Add validator.Tokens, s.2), false)

/-- The visitor passed to `IterateValidatorDistInfos`; only `loose` is captured there. -/
def supplyDistInfoVisitor (loose : Dec) (_ : Int) (distInfo : ValidatorDistInfo) : Dec × Bool :=
  let loose1 := loose.Add (DecCoins.AmountOf distInfo.Pool "steak")
  let loose2 := loose1.Add (DecCoins.AmountOf distInfo.PoolCommission "steak")
  (loose2, false)

/-- The body of `SupplyInvariants` up to the comparisons: the recomputed
`(loose, bonded)`. -/
def supplyTotals (st : State) : Dec × Dec :=
  let s0 : Dec × Dec := (ZeroDec, ZeroDec)
  let s1 := IterateAccounts st supplyAccountVisitor s0
  let s2 := IterateUnbondingDelegations st supplyUnbondingVisitor s1
  let s3 := IterateValidators st supplyValidatorVisitor s2
  let feePool := st.feePool
  let loose4 := s3.1.Add (DecCoins.AmountOf feePool.CommunityPool "steak")
  let loose5 := loose4.Add (DecCoins.AmountOf feePool.Pool "steak")
  let loose6 := IterateValidatorDistInfos st supplyDistInfoVisitor loose5
  (loose6, s3.2)

/-- `SupplyInvariants`: recompute `loose` and `bonded` and compare them with the pool. -/
def SupplyInvariants (st : State) : Option InvariantError :=
  let pool := st.pool
  let loose := (supplyTotals st).1
  let bonded := (supplyTotals st).2
  if !pool.LooseTokens.Equal loose then
    some (InvariantError.looseMismatch pool.LooseTokens loose)
  else if !pool.BondedTokens.Equal bonded then
    some (InvariantError.bondedMismatch pool.BondedTokens bonded)
  else
    none

/-- The visitor of `PositivePowerInvariant`; the captured variable is `err`. -/
def positivePowerVisitor (err : Option InvariantError) (_ : Int) (validator : Validator) :
    Option InvariantError × Bool :=
  if !validator.Power.GT ZeroDec then
    (some (InvariantError.nonPositivePower validator.ConsPubKey), true)
  else
    (err, false)

/-- `PositivePowerInvariant`: visit the bonded validators until one has non-positive power. -/
def PositivePowerInvariant (st : State) : Option InvariantError :=
  IterateValidatorsBonded st positivePowerVisitor none

/-- `ValidatorSetInvariant`: the TODO stub, always `nil`. -/
def ValidatorSetInvariant (_ : State) : Option InvariantError := none

/-- `AllInvariants`: supply, then positive power, then the validator set. -/
def AllInvariants (st : State) : Option InvariantError :=
  match SupplyInvariants st with
  | some err => some err
  | none =>
    match PositivePowerInvariant st with
    | some err => some err
    | none => ValidatorSetInvariant st

/-! ### The totals as the specification words them -/

/-- Sum of a list of decimals. -/
def sumDec (xs : List Dec) : Dec := ⟨(xs.map Dec.raw).sum⟩

/-- The claimed `loose'`: every account's "steak" balance, every unbonding delegation's
balance, the tokens of every validator whose status is Unbonding or Unbonded, the fee pool's
community pool, and every validator distribution record's pool and commission. -/
def claimedLoose (st : State) : Dec :=
  ⟨(sumDec (st.accounts.map (fun a => NewDecFromInt (Coins.AmountOf a.Coins "steak")))).raw
    + (sumDec (st.unbondingDelegations.map (fun u => NewDecFromInt u.Balance.Amount))).raw
    + (sumDec ((st.validators.filter (fun v =>
          decide (v.Status = BondStatus.Unbonding ∨ v.Status = BondStatus.Unbonded))).map
          Validator.Tokens)).raw
    + (DecCoins.AmountOf st.feePool.CommunityPool "steak").raw
    + (sumDec (st.validatorDistInfos.map (fun d =>
          (DecCoins.AmountOf d.Pool "steak").Add
            (DecCoins.AmountOf d.PoolCommission "steak")))).raw⟩

/-- The claimed `bonded'`: the power of every validator whose status is Bonded. -/
def claimedBonded (st : State) : Dec :=
  sumDec ((st.validators.filter (fun v => decide (v.Status = BondStatus.Bonded))).map
    Validator.Power)

/-- The amended `loose'`: the claimed total plus the fee pool's validator distribution
pool (`feePool.Pool`). -/
def amendedLoose (st : State) : Dec :=
  (claimedLoose st).Add (DecCoins.AmountOf st.feePool.Pool "steak")

/-! ### Concrete states -/

/-- The state obtained by overwriting only `pool.BondedTokens` with `b`. -/
def corruptBondedTokens (st : State) (b : Dec) : State :=
  ⟨⟨st.pool.LooseTokens, b⟩, st.accounts, st.unbondingDelegations, st.validators, st.feePool,
    st.validatorDistInfos⟩

/-- A state whose only funds are one steak in the fee pool's validator distribution pool,
while the pool records no loose and no bonded tokens. -/
def strandedFeePoolState : State :=
  ⟨⟨ZeroDec, ZeroDec⟩, [], [], [], ⟨NewTotalAccum 0, [⟨"steak", NewDecWithoutFra 1⟩], []⟩, []⟩

/-- A correctly derived genesis state: one account with 10 steak, one bonded validator of
power 5, one unbonded validator holding 2 steak, one steak in each fee pool. -/
def genesisState : State :=
  ⟨⟨NewDecWithoutFra 14, NewDecWithoutFra 5⟩,
   [⟨[⟨"steak", 10⟩]⟩],
   [],
   [⟨BondStatus.Bonded, NewDecWithoutFra 5, NewDecWithoutFra 5, [1]⟩,
    ⟨BondStatus.Unbonded, ZeroDec, NewDecWithoutFra 2, [2]⟩],
   ⟨NewTotalAccum 0, [⟨"steak", NewDecWithoutFra 1⟩], [⟨"steak", NewDecWithoutFra 1⟩]⟩,
   []⟩

/-- A state with an unbonded validator first, then bonded validators of power 5, 0, 7
and -1 with public keys 1, 2, 3 and 4. -/
def twoOffendersState : State :=
  ⟨⟨ZeroDec, ZeroDec⟩, [], [],
   [⟨BondStatus.Unbonded, ZeroDec, NewDecWithoutFra 2, [9]⟩,
    ⟨BondStatus.Bonded, NewDecWithoutFra 5, NewDecWithoutFra 5, [1]⟩,
    ⟨BondStatus.Bonded, ZeroDec, ZeroDec, [2]⟩,
    ⟨BondStatus.Bonded, NewDecWithoutFra 7, NewDecWithoutFra 7, [3]⟩,
    ⟨BondStatus.Bonded, NewDecWithoutFra (-1), ZeroDec, [4]⟩],
   InitialFeePool, []⟩

/-- A state whose only stored validator is unbonded, holds 2 steak and has power zero. -/
def unbondedZeroPowerState : State :=
  ⟨⟨NewDecWithoutFra 2, ZeroDec⟩, [], [],
   [⟨BondStatus.Unbonded, ZeroDec, NewDecWithoutFra 2, [9]⟩],
   InitialFeePool, []⟩

/-! ## Mint keeper (`x/mint/keeper.go`) -/

/-- A Go panic raised by the keeper. -/
inductive Fault where
  | missingMinter
  | codecFailure
deriving DecidableEq, Repr

/-- Modelled from the spec: the key-value store is not among the sources. The store
contract `get(key) -> bytes?`, where `none` is Go's `nil`; `set(key, value)` replaces the
value of one key. -/
structure KVStore where
  get : Bytes → Option Bytes

/-- `store.Get(key)`. -/
def KVStore.Get (store : KVStore) (key : Bytes) : Option Bytes := store.get key

/-- `store.Set(key, value)`. -/
def KVStore.Set (store : KVStore) (key value : Bytes) : KVStore :=
  ⟨fun k => if k = key then some value else store.get k⟩

/-- The context: one key-value store per store key. -/
structure Context where
  stores : String → KVStore

/-- `ctx.KVStore(key)`. -/
def Context.KVStore (ctx : Context) (key : String) : KVStore := ctx.stores key

/-- The codec is not among the sources: its length-prefixed binary encoding and decoding
of the record are taken as given, `none` being an encoding or decoding error. -/
structure Codec (α : Type) where
  MarshalBinaryLengthPrefixed : α → Option Bytes
  UnmarshalBinaryLengthPrefixed : Bytes → Option α

/-- `cdc.MustMarshalBinaryLengthPrefixed(o)`: panics on an encoding error. -/
def Codec.MustMarshalBinaryLengthPrefixed {α : Type} (cdc : Codec α) (o : α) :
    Except Fault Bytes :=
  match cdc.MarshalBinaryLengthPrefixed o with
  | none => Except.error Fault.codecFailure
  | some b => Except.ok b

/-- `cdc.MustUnmarshalBinaryLengthPrefixed(bz, ptr)`: panics on a decoding error. -/
def Codec.MustUnmarshalBinaryLengthPrefixed {α : Type} (cdc : Codec α) (bz : Bytes) :
    Except Fault α :=
  match cdc.UnmarshalBinaryLengthPrefixed bz with
  | none => Except.error Fault.codecFailure
  | some o => Except.ok o

/-- The keeper, over the type of the minter record: its store key and codec. -/
structure Keeper (Minter : Type) where
  storeKey : String
  cdc : Codec Minter

/-- The one key of the keeper store, `minterKey = []byte{0x00}`. -/
def minterKey : Bytes := [0x00]

/-- `Keeper.GetMinter`: panics when nothing is stored, else decodes with the panicking
decoder. -/
def Keeper.GetMinter {Minter : Type} (k : Keeper Minter) (ctx : Context) :
    Except Fault Minter :=
  let store := ctx.KVStore k.storeKey
  match store.Get minterKey with
  | none => Except.error Fault.missingMinter
  | some b => k.cdc.MustUnmarshalBinaryLengthPrefixed b

/-- `Keeper.SetMinter`: encodes with the panicking encoder and stores under `minterKey`. -/
def Keeper.SetMinter {Minter : Type} (k : Keeper Minter) (ctx : Context) (minter : Minter) :
    Except Fault Context :=
  let store := ctx.KVStore k.storeKey
  match k.cdc.MustMarshalBinaryLengthPrefixed minter with
  | Except.error e => Except.error e
  | Except.ok b =>
    Except.ok ⟨fun key => if key = k.storeKey then store.Set minterKey b else ctx.stores key⟩

/-- A length-prefixed codec for byte-string records, used to instantiate the keeper: one
length byte, then the payload; decoding fails unless the length byte matches. -/
def sampleCodec : Codec Bytes :=
  ⟨fun m => if m.length < 256 then some (UInt8.ofNat m.length :: m) else none,
   fun bz =>
    match bz with
    | [] => none
    | n :: payload => if payload.length = n.toNat then some payload else none⟩

/-- A keeper over byte-string records. -/
def sampleKeeper : Keeper Bytes := ⟨"mint", sampleCodec⟩

/-- A context whose mint store holds the single byte `0x05` under `minterKey`: a length
byte announcing five bytes of payload that are not there. -/
def truncatedContext : Context :=
  ⟨fun _ => ⟨fun key => if key = minterKey then some [0x05] else none⟩⟩

/-- A context whose mint store holds `0x01 0x07` under `minterKey`: the encoding of the
one-byte record `0x07`. -/
def storedContext : Context :=
  ⟨fun _ => ⟨fun key => if key = minterKey then some [0x01, 0x07] else none⟩⟩

/-! ## Transient store (`store/transientstore.go`) -/

/-- Modelled from the spec: `dbm.NewMemDB` is not among the sources. A fresh in-memory
database holds no key. -/
def NewMemDB : KVStore := ⟨fun _ => none⟩

/-- Modelled from the spec: `dbStoreAdapter` is not among the sources. It wraps a database
and serves the store contract from it. -/
structure dbStoreAdapter where
  DB : KVStore

/-- `dsa.Get(key)`: read from the wrapped database. -/
def dbStoreAdapter.Get (dsa : dbStoreAdapter) (key : Bytes) : Option Bytes := dsa.DB.Get key

/-- `dsa.Set(key, value)`: write to the wrapped database. -/
def dbStoreAdapter.Set (dsa : dbStoreAdapter) (key value : Bytes) : dbStoreAdapter :=
  ⟨dsa.DB.Set key value⟩

/-- `transientStore`: a wrapper for a MemDB, by embedding a `dbStoreAdapter`. -/
structure transientStore where
  dbStoreAdapter : dbStoreAdapter

/-- `newTransientStore`: a transient store over a new MemDB. -/
def newTransientStore : transientStore := ⟨⟨NewMemDB⟩⟩

/-- `ts.Get(key)`, promoted from the embedded adapter. -/
def transientStore.Get (ts : transientStore) (key : Bytes) : Option Bytes := ts.dbStoreAdapter.Get key

/-- `ts.Set(key, value)`, promoted from the embedded adapter. -/
def transientStore.Set (ts : transientStore) (key value : Bytes) : transientStore :=
  ⟨ts.dbStoreAdapter.Set key value⟩

/-- Modelled from the spec: `CommitID` is not among the sources. The identifier of a commit
of the versioned store, a version and a hash; Go's zero value has version 0 and no hash. -/
structure CommitID where
  Version : Int
  Hash : Bytes
deriving DecidableEq, Repr

/-- `transientStore.Commit`: replaces the adapter by one over a new MemDB and returns the
named result `id`, never assigned. The store after the call and the result. -/
def transientStore.Commit (_ : transientStore) : transientStore × CommitID :=
  (⟨⟨NewMemDB⟩⟩, ⟨0, []⟩)

/-! ## Slashing keys (`x/slashing/keys.go`) -/

/-- `ValidatorSlashingPeriodKey = []byte{0x03}`. -/
def ValidatorSlashingPeriodKey : Bytes := [0x03]

/-- `SlashRecordKey = []byte{0x05}`. -/
def SlashRecordKey : Bytes := [0x05]

/-- `binary.BigEndian.PutUint64(b, v)` on a fresh 8-byte slice: `b[i] = byte(v >> (56 - 8i))`,
where `byte(x)` keeps the low eight bits. -/
def PutUint64BigEndian (v : Nat) : Bytes :=
  [UInt8.ofNat (v / 2 ^ 56), UInt8.ofNat (v / 2 ^ 48), UInt8.ofNat (v / 2 ^ 40),
   UInt8.ofNat (v / 2 ^ 32), UInt8.ofNat (v / 2 ^ 24), UInt8.ofNat (v / 2 ^ 16),
   UInt8.ofNat (v / 2 ^ 8), UInt8.ofNat v]

/-- The conversion `uint64(x)` of an int64 computed with wrap-around: the value modulo
`2^64`. -/
def uint64OfInt64 (x : Int) : Nat := (x % 2 ^ 64).toNat

/-- `GetValidatorSlashingPeriodPrefix(v)`. -/
def GetValidatorSlashingPeriodPrefix (v : Bytes) : Bytes :=
  ValidatorSlashingPeriodKey ++ v

/-- `GetValidatorSlashingPeriodKey(v, startHeight)`; the constant
`stake.ValidatorUpdateDelay` is not among the sources and is a parameter. -/
def GetValidatorSlashingPeriodKey (ValidatorUpdateDelay : Int) (v : Bytes) (startHeight : Int) :
    Bytes :=
  let b := PutUint64BigEndian (uint64OfInt64 (startHeight + ValidatorUpdateDelay))
  GetValidatorSlashingPeriodPrefix v ++ b

/-- `GetSlashRecordsByAddrIndexKey(sideConsAddr)`. -/
def GetSlashRecordsByAddrIndexKey (sideConsAddr : Bytes) : Bytes :=
  SlashRecordKey ++ sideConsAddr

/-- `GetSlashRecordsByAddrAndTypeIndexKey(sideConsAddr, infractionType)`. -/
def GetSlashRecordsByAddrAndTypeIndexKey (sideConsAddr : Bytes) (infractionType : UInt8) :
    Bytes :=
  GetSlashRecordsByAddrIndexKey sideConsAddr ++ [infractionType]

/-- `GetSlashRecordKey(consAddr, infractionType, infractionHeight)`; the uint64 height is a
natural number below `2^64`. -/
def GetSlashRecordKey (consAddr : Bytes) (infractionType : UInt8) (infractionHeight : Nat) :
    Bytes :=
  let heightBz := PutUint64BigEndian infractionHeight
  GetSlashRecordsByAddrAndTypeIndexKey consAddr infractionType ++ heightBz

/-- The `k` low bytes of `n`, most significant first. -/
def beBytes : Nat → Nat → Bytes
  | 0, _ => []
  | k + 1, n => UInt8.ofNat (n / 256 ^ k) :: beBytes k n

/-- Strict lexicographic order on byte strings, bytes compared as unsigned numbers. -/
def bytesLess (a b : Bytes) : Prop := List.Lex (fun x y : UInt8 => x < y) a b

/-! ## Theorems -/

theorem updateSequence_from (calls : List (Int × Dec)) :
    ∀ ta : TotalAccum, nonDecreasingFrom ta.UpdateHeight calls →
      updateSequence ta calls =
        Except.ok ⟨lastHeight ta.UpdateHeight calls,
          ⟨ta.Accum.raw + definiteSum ta.UpdateHeight calls⟩⟩ := by
  induction calls with
  | nil =>
    intro ta _
    simp [updateSequence, lastHeight, definiteSum]
  | cons c rest ih =>
    obtain ⟨h, r⟩ := c
    intro ta hmono
    obtain ⟨hle, hrest⟩ := hmono
    have hnot : ¬ h < ta.UpdateHeight := not_lt.mpr hle
    simp only [updateSequence, TotalAccum.UpdateForNewHeight, if_neg hnot]
    rw [ih ⟨h, ta.Accum.Add (r.MulInt (h - ta.UpdateHeight))⟩ hrest]
    simp [lastHeight, definiteSum, Dec.Add, Dec.MulInt, add_assoc]

theorem iterate_add_loose {α : Type} (f : α → Dec) (fn : Dec × Dec → Int → α → (Dec × Dec) × Bool)
    (hfn : ∀ s i x, fn s i x = ((s.1.Add (f x), s.2), false)) (xs : List α) :
    ∀ (i : Int) (s : Dec × Dec),
      iterate fn xs i s = (⟨s.1.raw + (sumDec (xs.map f)).raw⟩, s.2) := by
  induction xs with
  | nil =>
    intro i s
    simp [iterate, sumDec]
  | cons x rest ih =>
    intro i s
    simp only [iterate, hfn]
    rw [ih]
    simp [sumDec, Dec.Add, add_assoc]

theorem iterate_supplyValidatorVisitor (xs : List Validator) :
    ∀ (i : Int) (s : Dec × Dec),
      iterate supplyValidatorVisitor xs i s =
        (⟨s.1.raw + (sumDec ((xs.filter (fun v =>
            decide (v.Status = BondStatus.Unbonding ∨ v.Status = BondStatus.Unbonded))).map
            Validator.Tokens)).raw⟩,
         ⟨s.2.raw + (sumDec ((xs.filter (fun v =>
            decide (v.Status = BondStatus.Bonded))).map Validator.Power)).raw⟩) := by
  induction xs with
  | nil =>
    intro i s
    simp [iterate, sumDec]
  | cons v rest ih =>
    intro i s
    cases hst : v.Status <;>
      simp [iterate, supplyValidatorVisitor, hst, ih, sumDec, Dec.Add, add_assoc]

theorem iterate_supplyDistInfoVisitor (xs : List ValidatorDistInfo) :
    ∀ (i : Int) (loose : Dec),
      iterate supplyDistInfoVisitor xs i loose =
        ⟨loose.raw + (sumDec (xs.map (fun d =>
          (DecCoins.AmountOf d.Pool "steak").Add
            (DecCoins.AmountOf d.PoolCommission "steak")))).raw⟩ := by
  induction xs with
  | nil =>
    intro i loose
    simp [iterate, sumDec]
  | cons d rest ih =>
    intro i loose
    simp only [iterate, supplyDistInfoVisitor]
    rw [ih]
    simp [sumDec, Dec.Add, add_assoc]

theorem supplyTotals_eq (st : State) :
    supplyTotals st = (amendedLoose st, claimedBonded st) := by
  have h1 := iterate_add_loose (fun a : Account => NewDecFromInt (Coins.AmountOf a.Coins "steak"))
    (fun s _ acc => supplyAccountVisitor s acc) (fun _ _ _ => rfl) st.accounts 0
    (ZeroDec, ZeroDec)
  have h2 := iterate_add_loose (fun u : UnbondingDelegation => NewDecFromInt u.Balance.Amount)
    supplyUnbondingVisitor (fun _ _ _ => rfl) st.unbondingDelegations 0
  simp only [supplyTotals, IterateAccounts, IterateUnbondingDelegations, IterateValidators,
    IterateValidatorDistInfos, h1, h2, iterate_supplyValidatorVisitor,
    iterate_supplyDistInfoVisitor, amendedLoose, claimedLoose, claimedBonded]
  simp only [Dec.Add, ZeroDec, sumDec, Prod.mk.injEq, Dec.mk.injEq]
  constructor <;> ring

theorem supplyInvariants_eq_none_iff (st : State) :
    SupplyInvariants st = none ↔
      st.pool.LooseTokens = amendedLoose st ∧ st.pool.BondedTokens = claimedBonded st := by
  have hraw : ∀ a b : Dec, a.raw = b.raw ↔ a = b := by
    intro a b
    cases a
    cases b
    simp
  simp only [SupplyInvariants, supplyTotals_eq, Dec.Equal]
  by_cases hl : st.pool.LooseTokens = amendedLoose st
  · by_cases hb : st.pool.BondedTokens = claimedBonded st
    · simp [hl, hb]
    · simp [hl, hb, hraw]
  · simp [hl, hraw]

theorem iterate_positivePowerVisitor (xs : List Validator) :
    ∀ (i : Int) (err : Option InvariantError),
      iterate positivePowerVisitor xs i err =
        match xs.find? (fun v => !v.Power.GT ZeroDec) with
        | some v => some (InvariantError.nonPositivePower v.ConsPubKey)
        | none => err := by
  induction xs with
  | nil =>
    intro i err
    simp [iterate]
  | cons v rest ih =>
    intro i err
    by_cases hv : v.Power.GT ZeroDec = true
    · simp [iterate, positivePowerVisitor, hv, ih]
    · simp [iterate, positivePowerVisitor, hv]

theorem find_first_offender (p : Validator → Bool) (pre : List Validator) (v : Validator)
    (post : List Validator) (hpre : ∀ u ∈ pre, p u = false) (hv : p v = true) :
    (pre ++ v :: post).find? p = some v := by
  induction pre with
  | nil => simp [hv]
  | cons u rest ih =>
    have hu : p u = false := hpre u (List.mem_cons_self u rest)
    have hrest : ∀ w ∈ rest, p w = false := fun w hw => hpre w (List.mem_cons_of_mem u hw)
    simp [List.find?, hu, ih hrest]

theorem gt_zero_iff (d : Dec) : d.GT ZeroDec = true ↔ 0 < d.raw := by
  simp [Dec.GT, ZeroDec]

theorem toNat_ofNat_byte (n : Nat) : (UInt8.ofNat n).toNat = n % 256 := by
  simp [UInt8.ofNat, UInt8.toNat, BitVec.toNat_ofNat]

theorem ofNat_byte_lt (a b : Nat) (h : a % 256 < b % 256) : UInt8.ofNat a < UInt8.ofNat b := by
  rw [UInt8.lt_def, BitVec.lt_def]
  show (UInt8.ofNat a).toNat < (UInt8.ofNat b).toNat
  rw [toNat_ofNat_byte, toNat_ofNat_byte]
  exact h

theorem ofNat_byte_eq (a b : Nat) (h : a % 256 = b % 256) : UInt8.ofNat a = UInt8.ofNat b := by
  apply UInt8.ext
  rw [toNat_ofNat_byte, toNat_ofNat_byte]
  exact h

theorem ofNat_byte_inj (a b : Nat) (h : UInt8.ofNat a = UInt8.ofNat b) : a % 256 = b % 256 := by
  have ht := congrArg UInt8.toNat h
  rwa [toNat_ofNat_byte, toNat_ofNat_byte] at ht

theorem putUint64_eq_beBytes (v : Nat) : PutUint64BigEndian v = beBytes 8 v := by
  simp [PutUint64BigEndian, beBytes]

theorem beBytes_length (k n : Nat) : (beBytes k n).length = k := by
  induction k with
  | zero => rfl
  | succ k ih => simp [beBytes, ih]

theorem beBytes_lex (k : Nat) :
    ∀ n1 n2 : Nat, n1 % 256 ^ k < n2 % 256 ^ k → bytesLess (beBytes k n1) (beBytes k n2) := by
  induction k with
  | zero =>
    intro n1 n2 h
    simp [Nat.mod_one] at h
  | succ k ih =>
    intro n1 n2 h
    rw [Nat.mod_pow_succ, Nat.mod_pow_succ] at h
    have hr2 : n2 % 256 ^ k < 256 ^ k := Nat.mod_lt _ (by positivity)
    rcases Nat.lt_trichotomy (n1 / 256 ^ k % 256) (n2 / 256 ^ k % 256) with hq | hq | hq
    · exact List.Lex.rel (ofNat_byte_lt _ _ hq)
    · have hb : UInt8.ofNat (n1 / 256 ^ k) = UInt8.ofNat (n2 / 256 ^ k) :=
        ofNat_byte_eq _ _ hq
      rw [hq] at h
      have hr : n1 % 256 ^ k < n2 % 256 ^ k := Nat.lt_of_add_lt_add_right h
      simp only [beBytes, hb]
      exact List.Lex.cons (ih n1 n2 hr)
    · exfalso
      have hmul : 256 ^ k * (n2 / 256 ^ k % 256 + 1) ≤ 256 ^ k * (n1 / 256 ^ k % 256) :=
        Nat.mul_le_mul_left _ hq
      rw [Nat.mul_add, Nat.mul_one] at hmul
      generalize 256 ^ k * (n1 / 256 ^ k % 256) = A1 at h hmul
      generalize 256 ^ k * (n2 / 256 ^ k % 256) = A2 at h hmul
      omega

theorem beBytes_inj (k : Nat) :
    ∀ n1 n2 : Nat, beBytes k n1 = beBytes k n2 → n1 % 256 ^ k = n2 % 256 ^ k := by
  induction k with
  | zero =>
    intro n1 n2 _
    simp [Nat.mod_one]
  | succ k ih =>
    intro n1 n2 h
    simp only [beBytes, List.cons.injEq] at h
    rw [Nat.mod_pow_succ, Nat.mod_pow_succ, ih n1 n2 h.2, ofNat_byte_inj _ _ h.1]

/-- C1: starting from `NewTotalAccum(h0)`, any sequence of `UpdateForNewHeight(h_i, r_i)`
calls with non-decreasing heights succeeds, ends at height `h_n` and with accum exactly
`Σ r_i * (h_i - h_{i-1})`; in particular from height 0, height 5 at rate 3 gives accum 15
and then height 8 at rate 2 gives accum 21. -/
theorem updateSequence_exact_sum (h0 : Int) (calls : List (Int × Dec))
    (hmono : nonDecreasingFrom h0 calls) :
    updateSequence (NewTotalAccum h0) calls =
      Except.ok ⟨lastHeight h0 calls, ⟨definiteSum h0 calls⟩⟩ ∧
    (NewTotalAccum 0).UpdateForNewHeight 5 (NewDecWithoutFra 3)
      = Except.ok ⟨5, NewDecWithoutFra 15⟩ ∧
    (TotalAccum.mk 5 (NewDecWithoutFra 15)).UpdateForNewHeight 8 (NewDecWithoutFra 2)
      = Except.ok ⟨8, NewDecWithoutFra 21⟩ := by
  have h := updateSequence_from calls (NewTotalAccum h0) hmono
  refine ⟨?_, rfl, rfl⟩
  simpa [NewTotalAccum, ZeroDec] using h

/-- C1 at the trace of `TestTotalAccumUpdateForNewHeight`: the two calls `(5, 3)` and
`(8, 2)` from height 0 end at height 8 with accum 21. -/
theorem updateSequence_exact_sum_witness :
    nonDecreasingFrom 0 [(5, NewDecWithoutFra 3), (8, NewDecWithoutFra 2)] ∧
    updateSequence (NewTotalAccum 0) [(5, NewDecWithoutFra 3), (8, NewDecWithoutFra 2)]
      = Except.ok ⟨8, NewDecWithoutFra 21⟩ :=
  ⟨⟨by decide, by decide, trivial⟩,
   (updateSequence_exact_sum 0 [(5, NewDecWithoutFra 3), (8, NewDecWithoutFra 2)]
      ⟨by decide, by decide, trivial⟩).1.trans rfl⟩

/-- C5: an update to a height below the recorded one fails with `OutOfOrderHeight`,
whatever the rate, and so returns no accumulator at all. -/
theorem updateForNewHeight_out_of_order (ta : TotalAccum) (newHeight : Int) (rate : Dec)
    (hlt : newHeight < ta.UpdateHeight) :
    ta.UpdateForNewHeight newHeight rate = Except.error AccumError.OutOfOrderHeight ∧
    ∀ ta1 : TotalAccum, ta.UpdateForNewHeight newHeight rate ≠ Except.ok ta1 := by
  have hfail : ta.UpdateForNewHeight newHeight rate
      = Except.error AccumError.OutOfOrderHeight := by
    simp [TotalAccum.UpdateForNewHeight, hlt]
  refine ⟨hfail, ?_⟩
  intro ta1 hok
  rw [hfail] at hok
  cases hok

/-- C5 at accumulator `(8, 21)`, new height 5 and rate 2. -/
theorem updateForNewHeight_out_of_order_witness :
    (5 : Int) < (TotalAccum.mk 8 (NewDecWithoutFra 21)).UpdateHeight ∧
    (TotalAccum.mk 8 (NewDecWithoutFra 21)).UpdateForNewHeight 5 (NewDecWithoutFra 2)
      = Except.error AccumError.OutOfOrderHeight :=
  ⟨by decide,
   (updateForNewHeight_out_of_order ⟨8, NewDecWithoutFra 21⟩ 5 (NewDecWithoutFra 2)
    (by decide)).1⟩

/-- C6: after `UpdateForNewHeight(h, r1)` with `h >= UpdateHeight`, a second
`UpdateForNewHeight(h, r2)` returns exactly the accumulator it was given, whatever `r2`. -/
theorem updateForNewHeight_same_height (ta : TotalAccum) (h : Int) (r1 r2 : Dec)
    (hge : ta.UpdateHeight ≤ h) :
    ∃ ta1 : TotalAccum, ta.UpdateForNewHeight h r1 = Except.ok ta1 ∧
      ta1.UpdateForNewHeight h r2 = Except.ok ta1 := by
  have hnot : ¬ h < ta.UpdateHeight := not_lt.mpr hge
  refine ⟨⟨h, ta.Accum.Add (r1.MulInt (h - ta.UpdateHeight))⟩, ?_, ?_⟩
  · simp [TotalAccum.UpdateForNewHeight, hnot]
  · simp [TotalAccum.UpdateForNewHeight, Dec.Add, Dec.MulInt]

/-- C6 at a fresh accumulator, height 5, rates 3 and 7. -/
theorem updateForNewHeight_same_height_witness :
    (NewTotalAccum 0).UpdateHeight ≤ 5 ∧
    ∃ ta1 : TotalAccum,
      (NewTotalAccum 0).UpdateForNewHeight 5 (NewDecWithoutFra 3) = Except.ok ta1 ∧
      ta1.UpdateForNewHeight 5 (NewDecWithoutFra 7) = Except.ok ta1 :=
  ⟨by decide,
   updateForNewHeight_same_height (NewTotalAccum 0) 5 (NewDecWithoutFra 3)
    (NewDecWithoutFra 7) (by decide)⟩

/-- C7: for `h >= fp.TotalValAccum.UpdateHeight`, `fp.UpdateTotalValAccum(h, r)` has the
accumulator `fp.TotalValAccum.UpdateForNewHeight(h, r)` and the other fields of `fp`;
`InitialFeePool()` has its accumulator at height 0 with zero accum, and updating it to
height 5 at rate 3 gives 15, then to height 8 at rate 2 gives 21. -/
theorem updateTotalValAccum_delegates (fp : FeePool) (h : Int) (r : Dec)
    (hge : fp.TotalValAccum.UpdateHeight ≤ h) :
    (∃ ta : TotalAccum, fp.TotalValAccum.UpdateForNewHeight h r = Except.ok ta ∧
      fp.UpdateTotalValAccum h r = Except.ok ⟨ta, fp.Pool, fp.CommunityPool⟩) ∧
    InitialFeePool.TotalValAccum = ⟨0, ZeroDec⟩ ∧
    InitialFeePool.UpdateTotalValAccum 5 (NewDecWithoutFra 3)
      = Except.ok ⟨⟨5, NewDecWithoutFra 15⟩, [], []⟩ ∧
    (FeePool.mk ⟨5, NewDecWithoutFra 15⟩ [] []).UpdateTotalValAccum 8 (NewDecWithoutFra 2)
      = Except.ok ⟨⟨8, NewDecWithoutFra 21⟩, [], []⟩ := by
  have hnot : ¬ h < fp.TotalValAccum.UpdateHeight := not_lt.mpr hge
  refine ⟨⟨⟨h, fp.TotalValAccum.Accum.Add (r.MulInt (h - fp.TotalValAccum.UpdateHeight))⟩,
    ?_, ?_⟩, rfl, rfl, rfl⟩
  · simp [TotalAccum.UpdateForNewHeight, hnot]
  · simp [FeePool.UpdateTotalValAccum, TotalAccum.UpdateForNewHeight, hnot]

/-- C7 at the genesis fee pool, height 5 and rate 3. -/
theorem updateTotalValAccum_delegates_witness :
    InitialFeePool.TotalValAccum.UpdateHeight ≤ 5 ∧
    ∃ ta : TotalAccum,
      InitialFeePool.TotalValAccum.UpdateForNewHeight 5 (NewDecWithoutFra 3) = Except.ok ta ∧
      InitialFeePool.UpdateTotalValAccum 5 (NewDecWithoutFra 3)
        = Except.ok ⟨ta, InitialFeePool.Pool, InitialFeePool.CommunityPool⟩ :=
  ⟨by decide,
   (updateTotalValAccum_delegates InitialFeePool 5 (NewDecWithoutFra 3) (by decide)).1⟩

/-- C2 as stated fails: with one steak in the fee pool's validator distribution pool and
nothing else, the pool's totals equal the claimed `loose'` and `bonded'`, yet
`SupplyInvariants` returns an error. -/
theorem supplyInvariants_claimed_totals_fail :
    ¬ (SupplyInvariants strandedFeePoolState = none ↔
        strandedFeePoolState.pool.LooseTokens = claimedLoose strandedFeePoolState ∧
        strandedFeePoolState.pool.BondedTokens = claimedBonded strandedFeePoolState) := by
  intro h
  have hrhs : strandedFeePoolState.pool.LooseTokens = claimedLoose strandedFeePoolState ∧
      strandedFeePoolState.pool.BondedTokens = claimedBonded strandedFeePoolState :=
    ⟨by decide, by decide⟩
  have hnone := h.mpr hrhs
  have hsome : SupplyInvariants strandedFeePoolState
      = some (InvariantError.looseMismatch ZeroDec (NewDecWithoutFra 1)) := by decide
  rw [hsome] at hnone
  cases hnone

/-- C2, amended: `SupplyInvariants` returns no error if and only if `pool.LooseTokens`
equals the sum of every account's "steak" balance, every unbonding delegation's balance,
the tokens of every Unbonding or Unbonded validator, the fee pool's community pool, the fee
pool's validator distribution pool, and every validator distribution record's pool and
commission, and `pool.BondedTokens` equals the summed power of the Bonded validators. -/
theorem supplyInvariants_ok_iff (st : State) :
    SupplyInvariants st = none ↔
      st.pool.LooseTokens = (claimedLoose st).Add (DecCoins.AmountOf st.feePool.Pool "steak") ∧
      st.pool.BondedTokens = claimedBonded st :=
  supplyInvariants_eq_none_iff st

/-- C3: `PositivePowerInvariant` returns an error exactly when some bonded validator has
power not strictly greater than zero; and whenever the bonded validators are
`pre ++ v :: post` with every power in `pre` positive and the power of `v` not, the error
names the consensus public key of `v` whatever `post` holds: the iteration stopped at `v`. -/
theorem positivePower_first_offender (st : State) :
    (PositivePowerInvariant st ≠ none ↔
      ∃ v ∈ st.validators, v.Status = BondStatus.Bonded ∧ ¬ 0 < v.Power.raw) ∧
    (∀ (pre : List Validator) (v : Validator) (post : List Validator),
      bondedValidators st = pre ++ v :: post →
      (∀ u ∈ pre, 0 < u.Power.raw) →
      ¬ 0 < v.Power.raw →
      PositivePowerInvariant st = some (InvariantError.nonPositivePower v.ConsPubKey)) := by
  constructor
  · simp only [PositivePowerInvariant, IterateValidatorsBonded, iterate_positivePowerVisitor]
    constructor
    · intro hne
      cases hfind : (bondedValidators st).find? (fun v => !v.Power.GT ZeroDec) with
      | none => simp [hfind] at hne
      | some v =>
        have hmem := List.mem_of_find?_eq_some hfind
        have hp := List.find?_some hfind
        simp only [bondedValidators, List.mem_filter, decide_eq_true_eq] at hmem
        refine ⟨v, hmem.1, hmem.2, ?_⟩
        intro hpos
        have hgt := (gt_zero_iff v.Power).mpr hpos
        simp [hgt] at hp
    · rintro ⟨v, hmem, hst, hnp⟩
      have hgt : v.Power.GT ZeroDec = false := by
        cases hb : v.Power.GT ZeroDec with
        | false => rfl
        | true => exact absurd ((gt_zero_iff v.Power).mp hb) hnp
      have hin : v ∈ bondedValidators st := by
        simp [bondedValidators, List.mem_filter, hmem, hst]
      cases hfind : (bondedValidators st).find? (fun v => !v.Power.GT ZeroDec) with
      | none =>
        have hall := List.find?_eq_none.mp hfind v hin
        simp [hgt] at hall
      | some w => simp
  · intro pre v post hsplit hpre hv
    have hfind : (bondedValidators st).find? (fun v => !v.Power.GT ZeroDec) = some v := by
      rw [hsplit]
      apply find_first_offender
      · intro u hu
        simp [(gt_zero_iff u.Power).mpr (hpre u hu)]
      · cases hb : v.Power.GT ZeroDec with
        | false => rfl
        | true => exact absurd ((gt_zero_iff v.Power).mp hb) hv
    simp [PositivePowerInvariant, IterateValidatorsBonded, iterate_positivePowerVisitor, hfind]

/-- C3 at bonded validators of power 5, 0, 7, -1: the error names key 2, the first
offender, and not key 4, the later one. -/
theorem positivePower_first_offender_witness :
    bondedValidators twoOffendersState =
      [⟨BondStatus.Bonded, NewDecWithoutFra 5, NewDecWithoutFra 5, [1]⟩] ++
        ⟨BondStatus.Bonded, ZeroDec, ZeroDec, [2]⟩ ::
        [⟨BondStatus.Bonded, NewDecWithoutFra 7, NewDecWithoutFra 7, [3]⟩,
         ⟨BondStatus.Bonded, NewDecWithoutFra (-1), ZeroDec, [4]⟩] ∧
    (0 : Int) < (NewDecWithoutFra 5).raw ∧
    ¬ (0 : Int) < ZeroDec.raw ∧
    PositivePowerInvariant twoOffendersState = some (InvariantError.nonPositivePower [2]) :=
  ⟨by decide, by decide, by decide,
   (positivePower_first_offender twoOffendersState).2
     [⟨BondStatus.Bonded, NewDecWithoutFra 5, NewDecWithoutFra 5, [1]⟩]
     ⟨BondStatus.Bonded, ZeroDec, ZeroDec, [2]⟩
     [⟨BondStatus.Bonded, NewDecWithoutFra 7, NewDecWithoutFra 7, [3]⟩,
      ⟨BondStatus.Bonded, NewDecWithoutFra (-1), ZeroDec, [4]⟩]
     (by decide) (by decide) (by decide)⟩

/-- C4 as stated fails: with the byte `0x05` stored under `minterKey`, a value is stored
and `GetMinter` still faults, in the panicking decoder. -/
theorem getMinter_faults_with_value_stored :
    ¬ ((∃ f : Fault, sampleKeeper.GetMinter truncatedContext = Except.error f) ↔
        (truncatedContext.KVStore sampleKeeper.storeKey).Get minterKey = none) := by
  intro h
  have hfault : ∃ f : Fault, sampleKeeper.GetMinter truncatedContext = Except.error f :=
    ⟨Fault.codecFailure, rfl⟩
  have hnone := h.mp hfault
  have hsome : (truncatedContext.KVStore sampleKeeper.storeKey).Get minterKey = some [0x05] := by
    decide
  rw [hsome] at hnone
  cases hnone

/-- C4, amended: `GetMinter` faults if and only if no value is stored under `minterKey` or
the stored bytes fail to decode; when a value is stored and decodes, `GetMinter` returns
the decoded record. -/
theorem getMinter_faults_iff {Minter : Type} (k : Keeper Minter) (ctx : Context) :
    ((∃ f : Fault, k.GetMinter ctx = Except.error f) ↔
      ((ctx.KVStore k.storeKey).Get minterKey = none ∨
        ∃ b : Bytes, (ctx.KVStore k.storeKey).Get minterKey = some b ∧
          k.cdc.UnmarshalBinaryLengthPrefixed b = none)) ∧
    (∀ (b : Bytes) (m : Minter), (ctx.KVStore k.storeKey).Get minterKey = some b →
      k.cdc.UnmarshalBinaryLengthPrefixed b = some m → k.GetMinter ctx = Except.ok m) := by
  constructor
  · cases hget : (ctx.KVStore k.storeKey).Get minterKey with
    | none => simp [Keeper.GetMinter, hget]
    | some b =>
      cases hdec : k.cdc.UnmarshalBinaryLengthPrefixed b with
      | none => simp [Keeper.GetMinter, hget, Codec.MustUnmarshalBinaryLengthPrefixed, hdec]
      | some m => simp [Keeper.GetMinter, hget, Codec.MustUnmarshalBinaryLengthPrefixed, hdec]
  · intro b m hget hdec
    simp [Keeper.GetMinter, hget, Codec.MustUnmarshalBinaryLengthPrefixed, hdec]

/-- C4, amended, at a store holding the two bytes `0x01 0x07`: the record `0x07` comes
back. -/
theorem getMinter_faults_iff_witness :
    (storedContext.KVStore sampleKeeper.storeKey).Get minterKey = some [0x01, 0x07] ∧
    sampleKeeper.cdc.UnmarshalBinaryLengthPrefixed [0x01, 0x07] = some [0x07] ∧
    sampleKeeper.GetMinter storedContext = Except.ok [0x07] :=
  ⟨by decide, by decide,
   (getMinter_faults_iff sampleKeeper storedContext).2 [0x01, 0x07] [0x07]
    (by decide) (by decide)⟩

/-- C8: on a state that passes `SupplyInvariants`, overwriting only `pool.BondedTokens`
with a different value makes `SupplyInvariants` return an error, the bonded mismatch of
the new value against the recomputed total. -/
theorem supplyInvariants_detects_bonded_corruption (st : State) (b : Dec)
    (hok : SupplyInvariants st = none) (hb : b ≠ st.pool.BondedTokens) :
    SupplyInvariants (corruptBondedTokens st b) ≠ none ∧
    SupplyInvariants (corruptBondedTokens st b)
      = some (InvariantError.bondedMismatch b st.pool.BondedTokens) := by
  obtain ⟨hl, hbd⟩ := (supplyInvariants_eq_none_iff st).mp hok
  have hl2 : amendedLoose (corruptBondedTokens st b) = amendedLoose st := rfl
  have hb2 : claimedBonded (corruptBondedTokens st b) = claimedBonded st := rfl
  have hne : ¬ b.raw = (claimedBonded st).raw := by
    intro heq
    apply hb
    rw [hbd]
    cases b
    cases hc : claimedBonded st
    simp_all
  have hval : SupplyInvariants (corruptBondedTokens st b)
      = some (InvariantError.bondedMismatch b st.pool.BondedTokens) := by
    simp only [SupplyInvariants, supplyTotals_eq, hl2, hb2, Dec.Equal]
    simp [corruptBondedTokens, hl, hne, hbd]
  refine ⟨?_, hval⟩
  rw [hval]
  simp

/-- C8 at the genesis state, bonded tokens overwritten with 6 instead of 5. -/
theorem supplyInvariants_detects_bonded_corruption_witness :
    SupplyInvariants genesisState = none ∧
    NewDecWithoutFra 6 ≠ genesisState.pool.BondedTokens ∧
    SupplyInvariants (corruptBondedTokens genesisState (NewDecWithoutFra 6)) ≠ none :=
  ⟨by decide, by decide,
   (supplyInvariants_detects_bonded_corruption genesisState (NewDecWithoutFra 6)
      (by decide) (by decide)).1⟩

/-- C9: `AllInvariants` returns no error exactly when both `SupplyInvariants` and
`PositivePowerInvariant` return none; otherwise it returns the `SupplyInvariants` error
if there is one and else the `PositivePowerInvariant` error; `ValidatorSetInvariant`
succeeds on every state. -/
theorem allInvariants_order (st : State) :
    (AllInvariants st = none ↔
      SupplyInvariants st = none ∧ PositivePowerInvariant st = none) ∧
    AllInvariants st =
      (SupplyInvariants st).orElse (fun _ => PositivePowerInvariant st) ∧
    ValidatorSetInvariant st = none := by
  cases hs : SupplyInvariants st with
  | some e => simp [AllInvariants, hs, Option.orElse, ValidatorSetInvariant]
  | none =>
    cases hp : PositivePowerInvariant st with
    | some e => simp [AllInvariants, hs, hp, Option.orElse, ValidatorSetInvariant]
    | none => simp [AllInvariants, hs, hp, Option.orElse, ValidatorSetInvariant]

/-- C10 as stated fails: the only stored validator is unbonded and has power zero, yet
`PositivePowerInvariant` returns no error, since only the bonded validators are visited. -/
theorem positivePower_skips_unbonded :
    ¬ ((∃ v ∈ unbondedZeroPowerState.validators, v.Power.raw ≤ 0) →
        PositivePowerInvariant unbondedZeroPowerState ≠ none) := by
  intro h
  have hstored : ∃ v ∈ unbondedZeroPowerState.validators, v.Power.raw ≤ 0 :=
    ⟨⟨BondStatus.Unbonded, ZeroDec, NewDecWithoutFra 2, [9]⟩, by simp [unbondedZeroPowerState],
      by simp [ZeroDec]⟩
  have hnone : PositivePowerInvariant unbondedZeroPowerState = none := by decide
  exact h hstored hnone

/-- C10, amended: `PositivePowerInvariant` checks that all bonded validators have > 0
power: for every state in which any stored validator whose status is Bonded has
power <= 0, `PositivePowerInvariant` returns an error. -/
theorem positivePower_errors_on_bonded_offender (st : State) (v : Validator)
    (hmem : v ∈ st.validators) (hst : v.Status = BondStatus.Bonded)
    (hnp : v.Power.raw ≤ 0) :
    PositivePowerInvariant st ≠ none := by
  have hgt : v.Power.GT ZeroDec = false := by
    cases hb : v.Power.GT ZeroDec with
    | false => rfl
    | true => exact absurd ((gt_zero_iff v.Power).mp hb) (not_lt.mpr hnp)
  have hin : v ∈ bondedValidators st := by
    simp [bondedValidators, List.mem_filter, hmem, hst]
  simp only [PositivePowerInvariant, IterateValidatorsBonded, iterate_positivePowerVisitor]
  cases hfind : (bondedValidators st).find? (fun w => !w.Power.GT ZeroDec) with
  | none =>
    have hall := List.find?_eq_none.mp hfind v hin
    simp [hgt] at hall
  | some w => simp

/-- C10, amended, at the bonded validator of power -1 stored last in a state that also
holds an unbonded validator of power zero. -/
theorem positivePower_errors_on_bonded_offender_witness :
    (⟨BondStatus.Bonded, NewDecWithoutFra (-1), ZeroDec, [4]⟩ : Validator)
      ∈ twoOffendersState.validators ∧
    (NewDecWithoutFra (-1)).raw ≤ 0 ∧
    PositivePowerInvariant twoOffendersState ≠ none :=
  ⟨by decide, by decide,
   positivePower_errors_on_bonded_offender twoOffendersState
     ⟨BondStatus.Bonded, NewDecWithoutFra (-1), ZeroDec, [4]⟩ (by decide) rfl (by decide)⟩

/-- C11: after `Commit()` the transient store is a fresh one, a `Get` of any key finds
nothing whatever the store held before, and `Commit` returns the zero `CommitID`. -/
theorem transientStore_commit_clears (ts : transientStore) (key : Bytes) :
    (ts.Commit).1.Get key = none ∧
    (ts.Commit).1 = newTransientStore ∧
    (ts.Commit).2 = ⟨0, []⟩ :=
  ⟨rfl, rfl, rfl⟩

/-- C12: when the codec encodes `m` to `b` and decodes `b` back to `m`, `SetMinter(m)`
succeeds, `GetMinter` on the resulting context returns `m`, and every key other than
`minterKey`, in the keeper's store and in every other store, keeps its value. -/
theorem setMinter_then_getMinter {Minter : Type} (k : Keeper Minter) (ctx : Context)
    (m : Minter) (b : Bytes)
    (henc : k.cdc.MarshalBinaryLengthPrefixed m = some b)
    (hdec : k.cdc.UnmarshalBinaryLengthPrefixed b = some m) :
    ∃ ctx1 : Context, k.SetMinter ctx m = Except.ok ctx1 ∧
      k.GetMinter ctx1 = Except.ok m ∧
      (ctx1.KVStore k.storeKey).Get minterKey = some b ∧
      (∀ key : Bytes, key ≠ minterKey →
        (ctx1.KVStore k.storeKey).Get key = (ctx.KVStore k.storeKey).Get key) ∧
      (∀ sk : String, sk ≠ k.storeKey → ∀ key : Bytes,
        (ctx1.KVStore sk).Get key = (ctx.KVStore sk).Get key) := by
  refine ⟨⟨fun key => if key = k.storeKey then (ctx.KVStore k.storeKey).Set minterKey b
    else ctx.stores key⟩, ?_, ?_, ?_, ?_, ?_⟩
  · simp [Keeper.SetMinter, Codec.MustMarshalBinaryLengthPrefixed, henc]
  · simp [Keeper.GetMinter, Context.KVStore, KVStore.Get, KVStore.Set,
      Codec.MustUnmarshalBinaryLengthPrefixed, hdec]
  · simp [Context.KVStore, KVStore.Get, KVStore.Set]
  · intro key hkey
    simp [Context.KVStore, KVStore.Get, KVStore.Set, hkey]
  · intro sk hsk key
    simp [Context.KVStore, hsk]

/-- C12 at the byte-string keeper: over a store holding the truncated bytes `0x05`,
setting the record `0x07` and reading it back gives `0x07`. -/
theorem setMinter_then_getMinter_witness :
    sampleKeeper.cdc.MarshalBinaryLengthPrefixed [0x07] = some [0x01, 0x07] ∧
    sampleKeeper.cdc.UnmarshalBinaryLengthPrefixed [0x01, 0x07] = some [0x07] ∧
    ∃ ctx1 : Context, sampleKeeper.SetMinter truncatedContext [0x07] = Except.ok ctx1 ∧
      sampleKeeper.GetMinter ctx1 = Except.ok [0x07] :=
  ⟨by decide, by decide,
   (setMinter_then_getMinter sampleKeeper truncatedContext [0x07] [0x01, 0x07]
      (by decide) (by decide)).imp (fun _ h => ⟨h.1, h.2.1⟩)⟩

/-- C13: for start heights `h1 < h2` with `h1 >= -ValidatorUpdateDelay` and
`h2 + ValidatorUpdateDelay` below `2^63`, the slashing-period key of `h1` is strictly below
that of `h2` in lexicographic byte order, both keys start with
`GetValidatorSlashingPeriodPrefix(v)`, and the start height `-ValidatorUpdateDelay` encodes
as eight zero bytes after it. -/
theorem slashingPeriodKey_ordered (ValidatorUpdateDelay : Int) (v : Bytes) (h1 h2 : Int)
    (hlt : h1 < h2) (hge : -ValidatorUpdateDelay ≤ h1)
    (hno : h2 + ValidatorUpdateDelay < 2 ^ 63) :
    bytesLess (GetValidatorSlashingPeriodKey ValidatorUpdateDelay v h1)
      (GetValidatorSlashingPeriodKey ValidatorUpdateDelay v h2) ∧
    GetValidatorSlashingPeriodPrefix v <+: GetValidatorSlashingPeriodKey ValidatorUpdateDelay v h1 ∧
    GetValidatorSlashingPeriodPrefix v <+: GetValidatorSlashingPeriodKey ValidatorUpdateDelay v h2 ∧
    GetValidatorSlashingPeriodKey ValidatorUpdateDelay v (-ValidatorUpdateDelay)
      = GetValidatorSlashingPeriodPrefix v ++ [0, 0, 0, 0, 0, 0, 0, 0] := by
  have hn : uint64OfInt64 (h1 + ValidatorUpdateDelay) % 256 ^ 8
      < uint64OfInt64 (h2 + ValidatorUpdateDelay) % 256 ^ 8 := by
    simp only [uint64OfInt64]
    norm_num
    omega
  refine ⟨?_, ?_, ?_, ?_⟩
  · simp only [GetValidatorSlashingPeriodKey, putUint64_eq_beBytes]
    exact List.Lex.append_left _ (beBytes_lex 8 _ _ hn) _
  · exact List.prefix_append _ _
  · exact List.prefix_append _ _
  · have hz : uint64OfInt64 (-ValidatorUpdateDelay + ValidatorUpdateDelay) = 0 := by
      simp [uint64OfInt64]
    simp only [GetValidatorSlashingPeriodKey, hz]
    rfl

/-- C13 at delay 1, address `0xAA`, start heights -1 and 0: the genesis key
`03 AA 00..00` is below `03 AA 00..01`. -/
theorem slashingPeriodKey_ordered_witness :
    (-1 : Int) < 0 ∧ -(1 : Int) ≤ -1 ∧ (0 : Int) + 1 < 2 ^ 63 ∧
    GetValidatorSlashingPeriodKey 1 [0xAA] (-1) = [0x03, 0xAA, 0, 0, 0, 0, 0, 0, 0, 0] ∧
    GetValidatorSlashingPeriodKey 1 [0xAA] 0 = [0x03, 0xAA, 0, 0, 0, 0, 0, 0, 0, 1] ∧
    bytesLess (GetValidatorSlashingPeriodKey 1 [0xAA] (-1))
      (GetValidatorSlashingPeriodKey 1 [0xAA] 0) :=
  ⟨by decide, by decide, by decide, by decide, by decide,
   (slashingPeriodKey_ordered 1 [0xAA] (-1) 0 (by decide) (by decide) (by decide)).1⟩

/-- C14: `GetSlashRecordKey` is injective on (address, type, uint64 height), addresses of
different lengths included; the key is `0x05 ++ addr ++ [type] ++` the big-endian 8-byte
height, so it extends `GetSlashRecordsByAddrAndTypeIndexKey(addr, type)`, which extends
`GetSlashRecordsByAddrIndexKey(addr)`. -/
theorem slashRecordKey_injective (addr addr1 : Bytes) (t t1 : UInt8) (h h1 : Nat)
    (hh : h < 2 ^ 64) (hh1 : h1 < 2 ^ 64)
    (heq : GetSlashRecordKey addr t h = GetSlashRecordKey addr1 t1 h1) :
    (addr = addr1 ∧ t = t1 ∧ h = h1) ∧
    GetSlashRecordKey addr t h = [0x05] ++ addr ++ [t] ++ PutUint64BigEndian h ∧
    GetSlashRecordsByAddrAndTypeIndexKey addr t <+: GetSlashRecordKey addr t h ∧
    GetSlashRecordsByAddrIndexKey addr <+: GetSlashRecordsByAddrAndTypeIndexKey addr t := by
  refine ⟨?_, rfl, List.prefix_append _ _, List.prefix_append _ _⟩
  simp only [GetSlashRecordKey, GetSlashRecordsByAddrAndTypeIndexKey,
    GetSlashRecordsByAddrIndexKey, putUint64_eq_beBytes] at heq
  have hlen : (beBytes 8 h).length = (beBytes 8 h1).length := by
    rw [beBytes_length, beBytes_length]
  obtain ⟨hfront, hbe⟩ := List.append_inj' heq hlen
  obtain ⟨hmid, htype⟩ := List.append_inj' hfront rfl
  have haddr : addr = addr1 := List.append_cancel_left hmid
  have ht : t = t1 := by simpa using htype
  have hmod := beBytes_inj 8 h h1 hbe
  have hpow : (256 : Nat) ^ 8 = 2 ^ 64 := by norm_num
  rw [hpow, Nat.mod_eq_of_lt hh, Nat.mod_eq_of_lt hh1] at hmod
  exact ⟨haddr, ht, hmod⟩

/-- C14 at address `01 02`, type 3, height 258: the key is `05 01 02 03 00..01 02`. -/
theorem slashRecordKey_injective_witness :
    (258 : Nat) < 2 ^ 64 ∧
    GetSlashRecordKey [1, 2] 3 258 = [0x05, 1, 2, 3, 0, 0, 0, 0, 0, 0, 1, 2] ∧
    (([1, 2] : Bytes) = [1, 2] ∧ (3 : UInt8) = 3 ∧ (258 : Nat) = 258) :=
  ⟨by decide, by decide,
   (slashRecordKey_injective [1, 2] [1, 2] 3 3 258 258 (by decide) (by decide) rfl).1⟩

end Cosmos
